import Mathlib

/-!
Verification development for the haaangry-backend recipe/recommendation service.

Strings from the Python source are modelled as `List Char` (Python `str` is a
sequence of code points).  Python `float` prices are modelled as exact rationals
(`ℚ`); JSON numeric literals are modelled as integers — fractional/exponent
literals and non-ASCII case folding are outside the modelled fragment, and no
claim below depends on them.
-/

namespace Haaangry

/-! ### Python string primitives -/

/-- The ASCII whitespace characters stripped by Python `str.strip()`. -/
def pyWhitespace : List Char := [' ', '\t', '\n', '\r', '\x0b', '\x0c']

/-- Drop characters satisfying `p` from the front of a string. -/
def stripLeft (p : Char → Bool) (s : List Char) : List Char :=
  s.dropWhile p

/-- Drop characters satisfying `p` from the back of a string. -/
def stripRight (p : Char → Bool) (s : List Char) : List Char :=
  (s.reverse.dropWhile p).reverse

/-- Drop characters satisfying `p` from both ends (Python `str.strip`). -/
def stripEnds (p : Char → Bool) (s : List Char) : List Char :=
  stripRight p (stripLeft p s)

/-- Python `s.strip()` (no argument): strip whitespace from both ends. -/
def pyStrip (s : List Char) : List Char :=
  stripEnds (· ∈ pyWhitespace) s

/-- Python `s.startswith(pre)`. -/
def pyStartsWith (pre s : List Char) : Bool :=
  pre.isPrefixOf s

/-- Python `s.find(c)` for a single character: first index, `-1` if absent. -/
def pyFindChar (c : Char) : List Char → Int
  | [] => -1
  | x :: xs =>
    if x = c then 0
    else
      let r := pyFindChar c xs
      if r = -1 then -1 else r + 1

/-- Python `s.rfind(c)` for a single character: last index, `-1` if absent. -/
def pyRfindChar (c : Char) (s : List Char) : Int :=
  let r := pyFindChar c s.reverse
  if r = -1 then -1 else (s.length : Int) - 1 - r

/-- Python `a or b` for strings: `a` if non-empty (truthy), else `b`. -/
def pyOr (a b : List Char) : List Char :=
  if a = [] then b else a

/-! ### JSON values

Python objects produced by `json.loads`.  Object fields keep `dict` insertion
order; duplicate keys overwrite in place (`dictInsert`), matching `dict`
semantics, so field keys are unique by construction. -/

inductive Json where
  | null : Json
  | bool (b : Bool) : Json
  | num (n : Int) : Json
  | str (s : List Char) : Json
  | arr (elems : List Json) : Json
  | obj (fields : List (List Char × Json)) : Json

/-- `dict` insertion: overwrite an existing key in place, else append. -/
def dictInsert (k : List Char) (v : Json) :
    List (List Char × Json) → List (List Char × Json)
  | [] => [(k, v)]
  | (k0, v0) :: rest =>
    if k0 = k then (k0, v) :: rest else (k0, v0) :: dictInsert k v rest

/-- Python `d.get(k)`: `None` (here `none`) when the key is absent. -/
def jsonGet (fields : List (List Char × Json)) (key : List Char) : Option Json :=
  (fields.find? (fun kv => kv.1 = key)).map (·.2)

/-- Python truthiness of a JSON-derived value. -/
def pyTruthy : Json → Bool
  | .null => false
  | .bool b => b
  | .num n => n ≠ 0
  | .str s => s ≠ []
  | .arr es => !es.isEmpty
  | .obj fs => !fs.isEmpty

/-! ### Decimal and hexadecimal digits -/

def natToChars (n : Nat) : List Char :=
  Nat.toDigits 10 n

def intToChars (i : Int) : List Char :=
  if i < 0 then '-' :: natToChars i.natAbs else natToChars i.toNat

def hexVal (c : Char) : Option Nat :=
  if '0' ≤ c ∧ c ≤ '9' then some (c.toNat - 48)
  else if 'a' ≤ c ∧ c ≤ 'f' then some (c.toNat - 87)
  else if 'A' ≤ c ∧ c ≤ 'F' then some (c.toNat - 55)
  else none

def hexDigitChar (n : Nat) : Char :=
  if n < 10 then Char.ofNat (48 + n) else Char.ofNat (87 + n)

/-! ### `json.loads`: recursive-descent parser (fuel-bounded) -/

/-- JSON insignificant whitespace (RFC 8259 / CPython `json`). -/
def skipJsonWs (s : List Char) : List Char :=
  s.dropWhile (fun c => c = ' ' ∨ c = '\t' ∨ c = '\n' ∨ c = '\r')

def digitsVal (ds : List Char) : Nat :=
  ds.foldl (fun a c => 10 * a + (c.toNat - 48)) 0

/-- Parse an unsigned JSON integer literal (no leading zeros). -/
def parseNatNum : List Char → Option (Nat × List Char)
  | [] => none
  | c :: rest =>
    if c = '0' then some (0, rest)
    else if c.isDigit then
      some (digitsVal (c :: rest.takeWhile Char.isDigit), rest.dropWhile Char.isDigit)
    else none

/-- Parse the body of a JSON string after the opening quote.
`\uXXXX` escapes decode a single code unit (surrogate pairs are not combined,
matching only the plane-0 fragment). -/
def parseStringBody : Nat → List Char → Option (List Char × List Char)
  | 0, _ => none
  | fuel + 1, s =>
    match s with
    | [] => none
    | c :: rest =>
      if c = '"' then some ([], rest)
      else if c = '\\' then
        match rest with
        | [] => none
        | e :: r2 =>
          let dec : Option (Char × List Char) :=
            if e = '"' then some ('"', r2)
            else if e = '\\' then some ('\\', r2)
            else if e = '/' then some ('/', r2)
            else if e = 'b' then some ('\x08', r2)
            else if e = 'f' then some ('\x0c', r2)
            else if e = 'n' then some ('\n', r2)
            else if e = 'r' then some ('\r', r2)
            else if e = 't' then some ('\t', r2)
            else if e = 'u' then
              match r2 with
              | h1 :: h2 :: h3 :: h4 :: r3 =>
                match hexVal h1, hexVal h2, hexVal h3, hexVal h4 with
                | some a, some b, some c3, some d =>
                  some (Char.ofNat (a * 4096 + b * 256 + c3 * 16 + d), r3)
                | _, _, _, _ => none
              | _ => none
            else none
          match dec with
          | some (ch, r3) =>
            match parseStringBody fuel r3 with
            | some (tl, r4) => some (ch :: tl, r4)
            | none => none
          | none => none
      else if c.toNat < 32 then none
      else
        match parseStringBody fuel rest with
        | some (tl, r2) => some (c :: tl, r2)
        | none => none

mutual

/-- Parse one JSON value (leading whitespace allowed), returning the rest. -/
def parseValue : Nat → List Char → Option (Json × List Char)
  | 0, _ => none
  | fuel + 1, s =>
    match skipJsonWs s with
    | [] => none
    | c :: rest =>
      if c = '{' then
        match skipJsonWs rest with
        | '}' :: r2 => some (.obj [], r2)
        | r2 => parseMembers fuel r2 []
      else if c = '[' then
        match skipJsonWs rest with
        | ']' :: r2 => some (.arr [], r2)
        | r2 => parseElems fuel r2 []
      else if c = '"' then
        match parseStringBody fuel rest with
        | some (str, r2) => some (.str str, r2)
        | none => none
      else if c = 't' then
        if "rue".toList.isPrefixOf rest then some (.bool true, rest.drop 3) else none
      else if c = 'f' then
        if "alse".toList.isPrefixOf rest then some (.bool false, rest.drop 4) else none
      else if c = 'n' then
        if "ull".toList.isPrefixOf rest then some (.null, rest.drop 3) else none
      else if c = '-' then
        match parseNatNum rest with
        | some (n, r2) => some (.num (-(n : Int)), r2)
        | none => none
      else
        match parseNatNum (c :: rest) with
        | some (n, r2) => some (.num (n : Int), r2)
        | none => none

/-- Parse object members starting at a key (whitespace already skipped). -/
def parseMembers : Nat → List Char →
    List (List Char × Json) → Option (Json × List Char)
  | 0, _, _ => none
  | fuel + 1, s, acc =>
    match s with
    | '"' :: rest =>
      match parseStringBody fuel rest with
      | some (key, r2) =>
        match skipJsonWs r2 with
        | ':' :: r3 =>
          match parseValue fuel r3 with
          | some (v, r4) =>
            let acc2 := dictInsert key v acc
            match skipJsonWs r4 with
            | ',' :: r5 => parseMembers fuel (skipJsonWs r5) acc2
            | '}' :: r5 => some (.obj acc2, r5)
            | _ => none
          | none => none
        | _ => none
      | none => none
    | _ => none

/-- Parse array elements starting at a value. -/
def parseElems : Nat → List Char → List Json → Option (Json × List Char)
  | 0, _, _ => none
  | fuel + 1, s, acc =>
    match parseValue fuel s with
    | some (v, r) =>
      match skipJsonWs r with
      | ',' :: r2 => parseElems fuel r2 (acc ++ [v])
      | ']' :: r2 => some (.arr (acc ++ [v]), r2)
      | _ => none
    | none => none

end

/-- Python `json.loads`: parse a complete document, requiring only
whitespace after the value. -/
def parseJsonTop (s : List Char) : Option Json :=
  match parseValue (4 * s.length + 16) s with
  | some (v, rest) => if skipJsonWs rest = [] then some v else none
  | none => none

/-! ### `json.dumps(..., ensure_ascii=False, separators=(",", ":"))` -/

/-- Escape one character of a JSON string as CPython `json.dumps` does with
`ensure_ascii=False`: only `"` `\` and control characters are escaped. -/
def escChar (c : Char) : List Char :=
  if c = '"' then ['\\', '"']
  else if c = '\\' then ['\\', '\\']
  else if c = '\n' then ['\\', 'n']
  else if c = '\r' then ['\\', 'r']
  else if c = '\t' then ['\\', 't']
  else if c = '\x08' then ['\\', 'b']
  else if c = '\x0c' then ['\\', 'f']
  else if c.toNat < 32 then
    ['\\', 'u', '0', '0', hexDigitChar (c.toNat / 16), hexDigitChar (c.toNat % 16)]
  else [c]

def serializeString (s : List Char) : List Char :=
  '"' :: (s.map escChar).flatten ++ ['"']

/-- Join pieces with a separator string. -/
def joinSep (sep : List Char) : List (List Char) → List Char
  | [] => []
  | [x] => x
  | x :: y :: rest => x ++ sep ++ joinSep sep (y :: rest)

/-- Recursion bound for traversals of `Json` values: one unit per nesting
level, far beyond any nesting CPython's parser (or its recursion limit) can
produce, so the fuel-bounded traversals below agree with the unbounded
functions on every value of interest. -/
def pyFuel : Nat := 1000000000

/-- Fuel-bounded minified serialization (one fuel unit per nesting level). -/
def serializeJsonAux : Nat → Json → List Char
  | 0, _ => []
  | _ + 1, .null => "null".toList
  | _ + 1, .bool true => "true".toList
  | _ + 1, .bool false => "false".toList
  | _ + 1, .num n => intToChars n
  | _ + 1, .str s => serializeString s
  | fuel + 1, .arr es =>
    '[' :: (joinSep [','] (es.map (serializeJsonAux fuel)) ++ [']'])
  | fuel + 1, .obj fs =>
    '{' :: (joinSep [','] (fs.map (fun kv =>
      serializeString kv.1 ++ ':' :: serializeJsonAux fuel kv.2)) ++ ['}'])

/-- Minified serialization of a JSON value (the `json.dumps(...,
ensure_ascii=False, separators=(",", ":"))` call in
`ClaudeClient._extract_minified_json`). -/
def serializeJson (v : Json) : List Char :=
  serializeJsonAux pyFuel v

/-! ### Python `str()` of JSON-derived values -/

/-- Fuel-bounded Python `repr` of a `json.loads` result; quote-escaping
inside `repr` of strings is not modelled (no claim evaluates it). -/
def pyReprAux : Nat → Json → List Char
  | 0, _ => []
  | _ + 1, .null => "None".toList
  | _ + 1, .bool true => "True".toList
  | _ + 1, .bool false => "False".toList
  | _ + 1, .num n => intToChars n
  | _ + 1, .str s => '\'' :: (s ++ ['\''])
  | fuel + 1, .arr es =>
    '[' :: (joinSep [',', ' '] (es.map (pyReprAux fuel)) ++ [']'])
  | fuel + 1, .obj fs =>
    '{' :: (joinSep [',', ' '] (fs.map (fun kv =>
      ('\'' :: (kv.1 ++ ['\''])) ++ ':' :: ' ' :: pyReprAux fuel kv.2)) ++ ['}'])

/-- Python `str(x)` for a `json.loads` result: the string itself for `str`,
the `repr` for everything else. -/
def pyStr : Json → List Char
  | .str s => s
  | v => pyReprAux pyFuel v

/-! ### The tolerant JSON extractor (`ClaudeClient._extract_minified_json`) -/

/-- The exception branch of the extractor: drop newlines/CRs/tabs, strip, and
fall back to the empty object when nothing is left. -/
def bestEffortCompact (raw : List Char) : List Char :=
  let compact := raw.filter (fun ch => ¬ (ch = '\n' ∨ ch = '\r' ∨ ch = '\t'))
  let c := pyStrip compact
  if c = [] then ['{', '}'] else c

/-- The brace-delimited slice `text[start : end + 1]` used by the extractor,
with `start = text.find("{")` and `end = text.rfind("}")`. -/
def braceSlice (text : List Char) : List Char :=
  (text.drop (pyFindChar '{' text).toNat).take
    ((pyRfindChar '}' text).toNat + 1 - (pyFindChar '{' text).toNat)

/-- `ClaudeClient._extract_minified_json`: slice from the first `{` to the last
`}`; reserialize if the slice parses, best-effort compact it otherwise, and
return the empty object when no brace pair exists. -/
def extractMinifiedJson (text : List Char) : List Char :=
  if pyFindChar '{' text = -1 ∨ pyRfindChar '}' text = -1 ∨
      pyRfindChar '}' text < pyFindChar '{' text then ['{', '}']
  else
    match parseJsonTop (braceSlice text) with
    | some v => serializeJson v
    | none => bestEffortCompact (braceSlice text)

/-- `ClaudeClient.ask_web_enforce_json`: the returned text is the extracted
JSON wrapped in square brackets (`modelText` is the stripped concatenation of
the model's text blocks). -/
def askWebEnforceJsonText (modelText : List Char) : List Char :=
  '[' :: (extractMinifiedJson modelText ++ [']'])

/-! ### Recipe links (`app/schemas.py` and `app/main.py`) -/

/-- `schemas.Link`: `title: str`, `url: str`. -/
structure Link where
  title : List Char
  url : List Char
  deriving DecidableEq

/-- `schemas.RecipeLinksResult`. -/
structure RecipeLinksResult where
  video_id : List Char
  query : List Char
  links : List Link
  deriving DecidableEq

/-- The chained `it.get(k1) or it.get(k2) or ... or ""` lookup in
`_call_claude`: first truthy value among the key aliases, else `""`. -/
def orChainGet (fields : List (List Char × Json)) : List (List Char) → Json
  | [] => .str []
  | k :: ks =>
    match jsonGet fields k with
    | some v => if pyTruthy v then v else orChainGet fields ks
    | none => orChainGet fields ks

/-- The accepted-record condition of `_call_claude`: after trimming, both
title and URL non-empty, and the URL has an `http(s)` scheme. -/
def keepLink (d u : List Char) : Bool :=
  d ≠ [] && u ≠ [] &&
    (pyStartsWith "http://".toList u || pyStartsWith "https://".toList u)

/-- One iteration of `_coerce_list_payload`'s loop: non-dict entries are
skipped, the title/URL are read under case aliases, trimmed and filtered;
the loop appends exactly the `some` results in order (`filterMap`). -/
def coerceOneItem (it : Json) : Option Link :=
  match it with
  | .obj fields =>
    let desc := orChainGet fields
      ["DESCRIPTION".toList, "description".toList, "Description".toList]
    let link := orChainGet fields
      ["LINK".toList, "link".toList, "Url".toList, "URL".toList]
    let d := pyStrip (pyStr desc)
    let u := pyStrip (pyStr link)
    if keepLink d u then some ⟨d, u⟩ else none
  | _ => none

/-- `_coerce_list_payload`: empty unless the payload is a list. -/
def coerceListPayload : Json → List Link
  | .arr items => items.filterMap coerceOneItem
  | _ => []

/-- One iteration of the old-shape fallback loops in `_call_claude` (exact
`title`/`url` keys, same trimming and scheme filter). -/
def oldShapeOneItem (it : Json) : Option Link :=
  match it with
  | .obj fields =>
    let t := pyStrip (pyStr (orChainGet fields ["title".toList]))
    let u := pyStrip (pyStr (orChainGet fields ["url".toList]))
    if keepLink t u then some ⟨t, u⟩ else none
  | _ => none

/-- Old-shape dispatch: `{"links": [...]}` or a bare list of `{title,url}`. -/
def oldShapeLinks : Json → List Link
  | .obj fields =>
    match jsonGet fields "links".toList with
    | some (.arr items) => items.filterMap oldShapeOneItem
    | _ => []
  | .arr items => items.filterMap oldShapeOneItem
  | _ => []

/-- Outcome of the `CLAUDE.ask_web_enforce_json(prompt)` call as seen by
`_call_claude`: no configured client, an exception raised below the call, or
returned text. -/
inductive GatewayOutcome where
  | noClient : GatewayOutcome
  | raised : GatewayOutcome
  | returned (txt : List Char) : GatewayOutcome

/-- `_call_claude`, reduced to the payload's `links` list: empty when the
client is `None`, empty when any exception is raised (the `except` branch),
else parse the text, coerce with old-shape fallbacks, and trim to 3. -/
def callClaudeLinks : GatewayOutcome → List Link
  | .noClient => []
  | .raised => []
  | .returned txt =>
    match parseJsonTop txt with
    | none => []
    | some data =>
      let links := coerceListPayload data
      let links := if links = [] then oldShapeLinks data else links
      links.take 3

/-- One record of `RAW_ITEMS` (feed JSON).  `none` models an absent field;
fields are strings in the modelled fragment. -/
structure RawItem where
  id : Option (List Char)
  title : Option (List Char)
  description : Option (List Char)

/-- Python `str(x)` for an optional string (`str(None) = "None"`). -/
def pyStrOfOptStr : Option (List Char) → List Char
  | none => "None".toList
  | some s => s

/-- `_lookup_title_desc`: first matching feed record, empty strings on miss. -/
def lookupTitleDesc (rawItems : List RawItem) (videoId : List Char) :
    List Char × List Char :=
  match rawItems.find? (fun r => pyStrOfOptStr r.id = videoId) with
  | some r => (r.title.getD [], r.description.getD [])
  | none => ([], [])

/-- `_prompt_for_recipes`: the single article-recipe prompt string. -/
def promptForRecipes (title description : List Char) : List Char :=
  "You are an assistant that finds cooking recipes on the web.\n".toList ++
  "Video title: ".toList ++ pyOr title "N/A".toList ++ ['\n'] ++
  "Video description: ".toList ++ pyOr description "N/A".toList ++ "\n\n".toList ++
  "Task: Search the public web for EXACTLY 3 high-quality recipe pages that match the most likely dish.\n".toList ++
  "Prefer reputable food sites and original sources. Avoid spam and video-only pages.\n".toList ++
  "Respond with JSON ONLY. No markdown. No commentary. Output must be an array of 3 objects with keys DESCRIPTION and LINK.\n".toList ++
  "Return format:\n".toList ++
  "[\x7b\"DESCRIPTION\":\"string\",\"LINK\":\"https://...\"\x7d, \x7b\"DESCRIPTION\":\"string\",\"LINK\":\"https://...\"\x7d, \x7b\"DESCRIPTION\":\"string\",\"LINK\":\"https://...\"\x7d]\n".toList ++
  "Ensure absolute HTTP(S) URLs.".toList

/-- Title/description resolution at the top of `_recipes_core`: trimmed
overrides when either is non-empty, else the trimmed feed lookup. -/
def resolveTitleDesc (rawItems : List RawItem) (videoId : List Char)
    (titleOverride descOverride : Option (List Char)) : List Char × List Char :=
  let title0 := pyStrip (titleOverride.getD [])
  let desc0 := pyStrip (descOverride.getD [])
  if title0 = [] ∧ desc0 = [] then
    let meta := lookupTitleDesc rawItems videoId
    (pyStrip meta.1, pyStrip meta.2)
  else (title0, desc0)

/-- The `query` field computed by `_recipes_core`: `title`, joined with the
description by an em-dash when both are present, with `"N/A"` as the final
fallback. -/
def recipesQuery (title desc : List Char) : List Char :=
  let q := if desc = [] then title
           else if title = [] then desc
           else title ++ ' ' :: '—' :: ' ' :: desc
  pyOr q "N/A".toList

/-- `_recipes_core`.  The gateway `gw` maps the prompt of the single
`_call_claude` invocation to its outcome; the second component of the result
records every prompt handed to the gateway, in call order. -/
def recipesCore (rawItems : List RawItem) (gw : List Char → GatewayOutcome)
    (videoId : List Char) (titleOverride descOverride : Option (List Char)) :
    RecipeLinksResult × List (List Char) :=
  let td := resolveTitleDesc rawItems videoId titleOverride descOverride
  let prompt := promptForRecipes td.1 td.2
  let links := callClaudeLinks (gw prompt)
  (⟨videoId, recipesQuery td.1 td.2, links⟩, [prompt])

/-! ### The client class imported by `app/main.py` (`app/src/Claude.py`) -/

/-- The methods defined on `Claude.py`'s `ClaudeClient`, the class
`app/main.py` actually imports (`from .src.Claude import ClaudeClient`). -/
def claudeV1Methods : List (List Char) :=
  ["ask".toList, "ask_with_web".toList, "_combine_text".toList,
   "_tool_web_search".toList, "_tool_web_get".toList, "_jina_reader_url".toList]

/-- The gateway realized by a `Claude.py` client instance: accessing
`ask_web_enforce_json` on it raises `AttributeError` inside `_call_claude`'s
`try` block when the method does not exist; `run` models what the method
would return if it existed. -/
def v1Gateway (run : List Char → List Char) (prompt : List Char) : GatewayOutcome :=
  if "ask_web_enforce_json".toList ∈ claudeV1Methods then .returned (run prompt)
  else .raised

/-! ### Restaurant catalog and recommendation flow (`app/main.py` lines 338-566)

Python `float` arithmetic on prices is modelled on exact rationals; `round`
is round-half-to-even, as CPython's `round` behaves on exactly representable
values. -/

/-- One entry of a restaurant's `menu` list.  `name = none` models an absent
key; `tags = []` conflates an absent, `None`, or empty tag list (all falsy). -/
structure RMenuItem where
  name : Option (List Char)
  price : Option ℚ
  tags : List (List Char)
  deriving DecidableEq

/-- One entry of `restaurants.json`'s `restaurants` list. -/
structure RRestaurant where
  id : Option (List Char)
  name : Option (List Char)
  menu : List RMenuItem
  deriving DecidableEq

/-- The loaded `_REST_CATALOG`. -/
structure Catalog where
  restaurants : List RRestaurant
  deriving DecidableEq

/-- `_REST_BY_ID` lookup: the dict comprehension keeps only truthy ids and the
last entry wins on duplicates. -/
def restById (cat : Catalog) (rid : List Char) : Option RRestaurant :=
  if rid = [] then none
  else (cat.restaurants.filter (fun r => r.id = some rid)).getLast?

/-- `_slug` (ASCII fragment of `ch.lower()`/`ch.isalnum()`). -/
def pySlug (s : List Char) : List Char :=
  stripEnds (· = '-') (s.map (fun ch => if ch.isAlphanum then ch.toLower else '-'))

/-- Python `round` of the exact rational `a / b` (`b > 0`): round half to
even, written on integers (floor quotient and remainder). -/
def roundHalfEven (a b : Int) : Int :=
  let f := Int.fdiv a b
  let r := a - f * b
  if 2 * r < b then f
  else if b < 2 * r then f + 1
  else if f % 2 = 0 then f else f + 1

/-- `int(round(sum(l) / len(l)))` with the `if l else 0` guard. -/
def pyRoundMean (l : List Int) : Int :=
  if l = [] then 0 else roundHalfEven l.sum (l.length : Int)

/-- `schemas.MenuItem`. -/
structure MenuItem where
  id : List Char
  restaurant_id : List Char
  name : List Char
  description : Option (List Char)
  price_cents : Int
  image_url : Option (List Char)
  tags : Option (List (List Char))
  deriving DecidableEq

/-- `int(round(float(price) * 100))` when a price is present, else `0`
(numeric prices always have a non-empty `str()`); `q * 100` is the rational
`(100 * q.num) / q.den`. -/
def priceCents : Option ℚ → Int
  | some q => roundHalfEven (q.num * 100) (q.den : Int)
  | none => 0

/-- The key of `_items_to_menu_models`' `name_map`:
`str(m.get("name")).strip().lower()`. -/
def normKeyOfName (n : Option (List Char)) : List Char :=
  (pyStrip (pyStrOfOptStr n)).map Char.toLower

/-- The lookup key of a requested item name: `str(nm or "").strip().lower()`. -/
def nameKeyOfRequested (nm : Option (List Char)) : List Char :=
  (pyStrip (nm.getD [])).map Char.toLower

/-- `name_map.get(key)`: dict comprehension keeps the last menu item whose
normalized name equals the key. -/
def nameMapLookup (menu : List RMenuItem) (key : List Char) : Option RMenuItem :=
  (menu.filter (fun m => normKeyOfName m.name = key)).getLast?

/-- The `SCH.MenuItem` built by `_items_to_menu_models` for one menu entry. -/
def menuItemOf (rid : List Char) (m : RMenuItem) : MenuItem :=
  { id := rid ++ ':' :: ':' :: pySlug (m.name.getD [])
    restaurant_id := rid
    name := m.name.getD []
    description := none
    price_cents := priceCents m.price
    image_url := none
    tags := if m.tags = [] then none else some m.tags }

/-- The resolution loop of `_items_to_menu_models`: unmatched names are
skipped silently. -/
def itemsLoop (menu : List RMenuItem) (rid : List Char) :
    List (Option (List Char)) → List MenuItem
  | [] => []
  | nm :: rest =>
    match nameMapLookup menu (nameKeyOfRequested nm) with
    | none => itemsLoop menu rid rest
    | some m => menuItemOf rid m :: itemsLoop menu rid rest

/-- `_items_to_menu_models`: resolved items plus the rounded mean of their
prices (`0` if none resolved). -/
def itemsToMenuModels (cat : Catalog) (rid : List Char)
    (itemNames : List (Option (List Char))) : List MenuItem × Int :=
  let menu := match restById cat rid with
    | some r => r.menu
    | none => []
  let out := itemsLoop menu rid itemNames
  (out, pyRoundMean (out.map (·.price_cents)))

/-- The back-fill loop of `recommend_api` (lines 536-547): walk the
restaurant's menu in catalog order, skip falsy or already-included names,
re-resolve each candidate through `_items_to_menu_models`, stop at 3 items. -/
def backfillLoop (cat : Catalog) (rid : List Char) :
    List RMenuItem → List MenuItem → List (List Char) → List MenuItem
  | [], items, _ => items
  | m :: rest, items, existing =>
    if 3 ≤ items.length then items
    else
      match m.name with
      | none => backfillLoop cat rid rest items existing
      | some n =>
        if n = [] ∨ n ∈ existing then backfillLoop cat rid rest items existing
        else
          match (itemsToMenuModels cat rid [some n]).1 with
          | [] => backfillLoop cat rid rest items existing
          | e :: _ => backfillLoop cat rid rest (items ++ [e]) (existing ++ [n])

/-- Lines 532-550 of `recommend_api` for one accepted recommendation: resolve
at most 3 requested names, back-fill when fewer than 3 resolved, recompute the
average when any item is present. -/
def blockItemsAndAvg (cat : Catalog) (rid : List Char) (r : RRestaurant)
    (itemNames : List (Option (List Char))) : List MenuItem × Int :=
  let p := itemsToMenuModels cat rid (itemNames.take 3)
  if p.1.length < 3 then
    let items2 := backfillLoop cat rid r.menu p.1 (p.1.map (·.name))
    (items2, if items2 = [] then p.2 else pyRoundMean (items2.map (·.price_cents)))
  else p

/-- `schemas.RestaurantBlock` (note the required `menu_url` field). -/
structure RestaurantBlock where
  restaurant_id : List Char
  restaurant_name : List Char
  menu_url : List Char
  items : List MenuItem
  avg_price_cents : Int
  deriving DecidableEq

inductive PyErr where
  | attributeError : PyErr
  | validationError : PyErr
  deriving DecidableEq

/-- Pydantic construction of a `RestaurantBlock`: every required field must be
supplied, otherwise a `ValidationError` is raised. -/
def mkRestaurantBlock (rid₀ name₀ murl₀ : Option (List Char))
    (items₀ : Option (List MenuItem)) (avg₀ : Option Int) :
    Except PyErr RestaurantBlock :=
  match rid₀, name₀, murl₀, items₀, avg₀ with
  | some a, some b, some c, some d, some e => .ok ⟨a, b, c, d, e⟩
  | _, _, _, _, _ => .error .validationError

/-- One entry of `raw_obj["recommendations"]` in the modelled fragment. -/
structure RecChoice where
  restaurant_id : Option (List Char)
  item_names : List (Option (List Char))
  deriving DecidableEq

/-- `schemas.RecommendOut`. -/
structure RecommendOut where
  recommendations : List RestaurantBlock
  deriving DecidableEq

/-- The block-building loop of `recommend_api` (lines 527-557): skip unknown
restaurant ids, build items and average, then construct the pydantic block —
passing no `menu_url`, exactly as the source does. -/
def blocksLoop (cat : Catalog) : List RecChoice → Except PyErr (List RestaurantBlock)
  | [] => .ok []
  | rc :: rest =>
    match rc.restaurant_id with
    | none => blocksLoop cat rest
    | some rid =>
      match restById cat rid with
      | none => blocksLoop cat rest
      | some r =>
        let p := blockItemsAndAvg cat rid r rc.item_names
        match mkRestaurantBlock (some rid) (some (pyOr (r.name.getD []) rid))
            none (some p.1) (some p.2) with
        | .error e => .error e
        | .ok b => (blocksLoop cat rest).map (fun bs => b :: bs)

/-- `recommend_api` from the parsed recommendations onward:
`raw_obj.get("recommendations", [])[:3]`, the block loop, then
`RecommendOut(recommendations=blocks)` (which cannot fail on a typed list). -/
def recommendFromRecs (cat : Catalog) (recs : List RecChoice) :
    Except PyErr RecommendOut :=
  (blocksLoop cat (recs.take 3)).map RecommendOut.mk

/-! ### The fallback token-overlap ranker (`_fallback_simple_choice`) -/

/-- Maximal runs of characters satisfying `p` (used for `re.findall` of
`[a-zA-Z]+` and for Python `str.split()`); fuel-bounded, at least one
character is consumed per step so `s.length` fuel is always enough. -/
def charRunsAux (p : Char → Bool) : Nat → List Char → List (List Char)
  | 0, _ => []
  | _, [] => []
  | fuel + 1, c :: rest =>
    if p c then (c :: rest.takeWhile p) :: charRunsAux p fuel (rest.dropWhile p)
    else charRunsAux p fuel rest

def charRuns (p : Char → Bool) (s : List Char) : List (List Char) :=
  charRunsAux p s.length s

def isAsciiAlpha (c : Char) : Bool :=
  ('a' ≤ c && c ≤ 'z') || ('A' ≤ c && c ≤ 'Z')

/-- `set(re.findall(r"[a-zA-Z]+", f"{title} {description}".lower()))`,
as a duplicate-free list. -/
def tokensOf (title desc : List Char) : List (List Char) :=
  (charRuns isAsciiAlpha ((title ++ ' ' :: desc).map Char.toLower)).dedup

/-- Python `str.split()`: maximal non-whitespace runs. -/
def pySplitWs (s : List Char) : List (List Char) :=
  charRuns (fun c => ¬ (c ∈ pyWhitespace)) s

/-- `len(tokens.intersection(set(n.split())))` for one menu item, where
`n = str(m.get("name", "")).lower()`. -/
def overlapScore (tokens : List (List Char)) (m : RMenuItem) : Nat :=
  let words := pySplitWs ((m.name.getD []).map Char.toLower)
  (tokens.filter (fun t => t ∈ words)).length

/-- The per-restaurant score: `best = max(best, overlap)` over the menu. -/
def bestScore (tokens : List (List Char)) (menu : List RMenuItem) : Nat :=
  menu.foldl (fun best m => max best (overlapScore tokens m)) 0

/-- Stable insertion for descending sort on the first component: an element is
placed before every strictly smaller key and after equal keys seen later in
the insertion, giving the stable order of Python
`sorted(..., key=lambda x: x[0], reverse=True)`. -/
def insertScoreDesc {α : Type} (x : Nat × α) : List (Nat × α) → List (Nat × α)
  | [] => [x]
  | y :: ys => if y.1 ≤ x.1 then x :: y :: ys else y :: insertScoreDesc x ys

/-- Stable descending sort by first component. -/
def sortScoreDesc {α : Type} : List (Nat × α) → List (Nat × α)
  | [] => []
  | x :: xs => insertScoreDesc x (sortScoreDesc xs)

/-- `_fallback_simple_choice`.  The item-selection loop reads `_REST_BY_ID`,
which at runtime is derived from the same loaded catalog that is scored. -/
def fallbackSimpleChoice (cat : Catalog) (title desc : List Char) :
    List RecChoice :=
  let tokens := tokensOf title desc
  let scores := cat.restaurants.map (fun r => (bestScore tokens r.menu, r.id))
  let topIds := ((sortScoreDesc scores).take 3).filterMap
    (fun p => match p.2 with
      | some rid => if rid = [] then none else some rid
      | none => none)
  let recs := topIds.filterMap (fun rid =>
    match restById cat rid with
    | none => none
    | some r => some (⟨some rid, (r.menu.map (·.name)).take 3⟩ : RecChoice))
  recs.take 3

/-- The claim's description of the fallback ranker, stated from the spec's
words for refinement comparison: tokenize title+description into lowercase
alphabetic words, score each restaurant by the maximum token overlap over its
menu-item names, rank restaurants by score descending (ties broken by catalog
iteration order), take the top 3, and pick each chosen restaurant's first 3
menu items in catalog order. -/
def fallbackRankerSpec (cat : Catalog) (title desc : List Char) :
    List RecChoice :=
  let tokens := tokensOf title desc
  let ranked := sortScoreDesc (cat.restaurants.map (fun r => (bestScore tokens r.menu, r)))
  ((ranked.take 3).map (·.2)).map
    (fun r => ⟨r.id, (r.menu.map (·.name)).take 3⟩)

/-! ### Concrete example data used in closed theorems -/

/-- A one-restaurant catalog with an empty menu. -/
def exCatalogSolo : Catalog :=
  ⟨[⟨some "r1".toList, some "R".toList, []⟩]⟩

/-- A catalog whose only restaurant has a 3-item menu with a duplicated
item name. -/
def exCatalogDup : Catalog :=
  ⟨[⟨some "r1".toList, some "X".toList,
    [⟨some "A".toList, some 1, []⟩,
     ⟨some "A".toList, some 2, []⟩,
     ⟨some "B".toList, some 3, []⟩]⟩]⟩

/-- A ramen restaurant with five distinctly named menu items and rational
(dollar) prices. -/
def exRamenR1 : RRestaurant :=
  ⟨some "r1".toList, some "Ramen Cart".toList,
    [⟨some "Spicy Tonkotsu Ramen".toList, some (mkRat 1399 100), []⟩,
     ⟨some "Gyoza (6pc)".toList, some (mkRat 599 100), []⟩,
     ⟨some "Miso Soup".toList, some (mkRat 35 10), []⟩,
     ⟨some "Chashu Bowl".toList, some (mkRat 1125 100), []⟩,
     ⟨some "Edamame".toList, some 4, []⟩]⟩

/-- A two-restaurant catalog with distinct item names. -/
def exCatalogRamen : Catalog :=
  ⟨[exRamenR1,
   ⟨some "r2".toList, some "Taco Truck".toList,
    [⟨some "Birria Tacos".toList, some (mkRat 1299 100), []⟩]⟩]⟩

/-! ## Helper lemmas -/

theorem callClaudeLinks_length_le (g : GatewayOutcome) :
    (callClaudeLinks g).length ≤ 3 := by
  cases g with
  | noClient => simp [callClaudeLinks]
  | raised => simp [callClaudeLinks]
  | returned txt =>
    simp only [callClaudeLinks]
    cases parseJsonTop txt with
    | none => simp
    | some data =>
      simp

theorem recipesCore_links (rawItems : List RawItem)
    (gw : List Char → GatewayOutcome) (vid : List Char)
    (tO dO : Option (List Char)) :
    (recipesCore rawItems gw vid tO dO).1.links =
      callClaudeLinks (gw (promptForRecipes
        (resolveTitleDesc rawItems vid tO dO).1
        (resolveTitleDesc rawItems vid tO dO).2)) := by
  rfl

/-! ## Claim theorems -/

/-- C10: for every gateway behaviour and every input, each branch of
`_call_claude` yields at most 3 links (empty or `links[:3]`), and
`_recipes_core` passes the gateway's list through unchanged, so the recipe
path returns at most 3 links. -/
theorem c10_links_at_most_three (g : GatewayOutcome) (rawItems : List RawItem)
    (gw : List Char → GatewayOutcome) (vid : List Char)
    (tO dO : Option (List Char)) :
    (callClaudeLinks g).length ≤ 3 ∧
      ((recipesCore rawItems gw vid tO dO).1.links).length ≤ 3 := by
  refine ⟨callClaudeLinks_length_le g, ?_⟩
  rw [recipesCore_links]
  exact callClaudeLinks_length_le _

/-- C1 counterexample: at a concrete call of the `/recipes` core the
orchestrator hands exactly one prompt to the model gateway, not the two
(article-recipe and video-recipe) prompts the claim asserts. -/
theorem c1_single_prompt_counterexample :
    ((recipesCore [] (fun _ => GatewayOutcome.noClient) "v1".toList
      (some "Ramen".toList) none).2).length ≠ 2 := by
  decide

/-- C1 amended: the orchestrator builds a single prompt and makes a single
gateway call; the returned links are exactly that call's validated list, with
no kind labels, of length at most 3 (hence at most 6), and there is no
second (video-path) list to concatenate. -/
theorem c1_single_path_merge (rawItems : List RawItem)
    (gw : List Char → GatewayOutcome) (vid : List Char)
    (tO dO : Option (List Char)) :
    (recipesCore rawItems gw vid tO dO).2 =
      [promptForRecipes (resolveTitleDesc rawItems vid tO dO).1
        (resolveTitleDesc rawItems vid tO dO).2] ∧
    (recipesCore rawItems gw vid tO dO).1.links =
      callClaudeLinks (gw (promptForRecipes
        (resolveTitleDesc rawItems vid tO dO).1
        (resolveTitleDesc rawItems vid tO dO).2)) ∧
    ((recipesCore rawItems gw vid tO dO).1.links).length ≤ 3 := by
  refine ⟨rfl, recipesCore_links _ _ _ _ _, ?_⟩
  rw [recipesCore_links]
  exact callClaudeLinks_length_le _

/-- C7 counterexample: with both a non-empty title and a non-empty
description, the returned `query` is the em-dash join of the two, not the
resolved title the claim asserts. -/
theorem c7_query_counterexample :
    (recipesCore [] (fun _ => GatewayOutcome.noClient) "v1".toList
        (some "A".toList) (some "B".toList)).1.query ≠ "A".toList ∧
    (recipesCore [] (fun _ => GatewayOutcome.noClient) "v1".toList
        (some "A".toList) (some "B".toList)).1.query = "A — B".toList := by
  constructor
  · decide
  · decide

/-- C7 amended: `query` equals the resolved title joined to the resolved
description by an em-dash when both are non-empty, the title alone when only
it is non-empty, the description alone when only it is non-empty, and the
sentinel `"N/A"` when both are empty. -/
theorem c7_query_shape (rawItems : List RawItem)
    (gw : List Char → GatewayOutcome) (vid : List Char)
    (tO dO : Option (List Char)) :
    (recipesCore rawItems gw vid tO dO).1.query =
      (if (resolveTitleDesc rawItems vid tO dO).1 ≠ [] ∧
          (resolveTitleDesc rawItems vid tO dO).2 ≠ [] then
        (resolveTitleDesc rawItems vid tO dO).1 ++
          ' ' :: '—' :: ' ' :: (resolveTitleDesc rawItems vid tO dO).2
      else if (resolveTitleDesc rawItems vid tO dO).1 ≠ [] then
        (resolveTitleDesc rawItems vid tO dO).1
      else if (resolveTitleDesc rawItems vid tO dO).2 ≠ [] then
        (resolveTitleDesc rawItems vid tO dO).2
      else "N/A".toList) := by
  show recipesQuery _ _ = _
  generalize (resolveTitleDesc rawItems vid tO dO).1 = t
  generalize (resolveTitleDesc rawItems vid tO dO).2 = d
  by_cases ht : t = [] <;> by_cases hd : d = [] <;>
    simp [recipesQuery, pyOr, ht, hd]

/-- C3: the client class imported from `src/app/src/Claude.py` defines only
`ask` and `ask_with_web` as completion methods, so `CLAUDE.ask_web_enforce_json`
raises `AttributeError`, `_call_claude`'s `except` branch absorbs it and
returns empty links, and every `RecipeLinksResult` built through this path
has `links = []`. -/
theorem c3_v1_client_empty_links (run : List Char → List Char)
    (prompt : List Char) (rawItems : List RawItem) (vid : List Char)
    (tO dO : Option (List Char)) :
    "ask_web_enforce_json".toList ∉ claudeV1Methods ∧
    callClaudeLinks (v1Gateway run prompt) = [] ∧
    (recipesCore rawItems (v1Gateway run) vid tO dO).1.links = [] := by
  have h : "ask_web_enforce_json".toList ∉ claudeV1Methods := by decide
  have h2 : ∀ p, v1Gateway run p = .raised := fun p => by
    unfold v1Gateway
    rw [if_neg h]
  refine ⟨h, ?_, ?_⟩
  · rw [h2]
    rfl
  · rw [recipesCore_links, h2]
    rfl

/-- C2 (code bug): on a catalog with one known restaurant, the fallback path
produces one recommendation naming that restaurant, and building its
`RestaurantBlock` raises a pydantic `ValidationError` (the required
`menu_url` field is never passed by `recommend_api`), which escapes the
handler instead of being absorbed into neutral data. -/
theorem c2_menu_url_validation_error :
    (fallbackSimpleChoice exCatalogSolo "pizza".toList []).length = 1 ∧
    (fallbackSimpleChoice exCatalogSolo "pizza".toList []).head? =
      some ⟨some "r1".toList, []⟩ ∧
    recommendFromRecs exCatalogSolo
        (fallbackSimpleChoice exCatalogSolo "pizza".toList []) =
      .error .validationError := by
  refine ⟨by decide, by decide, rfl⟩

theorem pyFindChar_append_of_head (c : Char) (l t : List Char)
    (hl : c ∉ l) (ht : t.head? = some c) :
    pyFindChar c (l ++ t) = (l.length : Int) := by
  induction l with
  | nil =>
    cases t with
    | nil => simp at ht
    | cons a t2 =>
      simp only [List.head?_cons, Option.some.injEq] at ht
      simp [pyFindChar, ht]
  | cons x l2 ih =>
    have hx : x ≠ c := fun h => hl (by simp [h])
    have hl2 : c ∉ l2 := fun h => hl (by simp [h])
    have ihv : pyFindChar c (l2.append t) = (l2.length : Int) := ih hl2
    simp only [List.cons_append, pyFindChar, if_neg hx, ihv]
    have hne : (l2.length : Int) ≠ -1 := by
      omega
    rw [if_neg hne]
    simp only [List.length_cons]
    push_cast
    ring

theorem pyRfindChar_three_append (l s r : List Char)
    (h3 : s.getLast? = some '}') (h5 : '}' ∉ r) :
    pyRfindChar '}' (l ++ s ++ r) = (l.length : Int) + s.length - 1 := by
  have hs : s ≠ [] := by
    intro h
    rw [h] at h3
    simp at h3
  have hrev : (l ++ s ++ r).reverse = r.reverse ++ (s.reverse ++ l.reverse) := by
    simp
  have hhead : (s.reverse ++ l.reverse).head? = some '}' := by
    cases hsr : s.reverse with
    | nil => simp [List.reverse_eq_nil_iff] at hsr; exact absurd hsr hs
    | cons a t2 =>
      have : s.reverse.head? = some '}' := by
        rw [List.head?_reverse]
        exact h3
      rw [hsr] at this
      simpa [hsr] using this
  have hnr : '}' ∉ r.reverse := by
    simpa using h5
  have hfind := pyFindChar_append_of_head '}' r.reverse (s.reverse ++ l.reverse) hnr hhead
  simp only [pyRfindChar]
  rw [hrev, hfind]
  simp only [List.length_reverse, List.length_append]
  rw [if_neg (show ((r.length : Int)) ≠ -1 by omega)]
  push_cast
  ring

/-- C4 counterexample: a brace pair whose slice fails to parse is returned as
a best-effort compaction, not as the neutral empty object. -/
theorem c4_parse_failure_not_neutral :
    parseJsonTop (braceSlice "\x7boops\x7d".toList) = none ∧
    extractMinifiedJson "\x7boops\x7d".toList = "\x7boops\x7d".toList ∧
    extractMinifiedJson "\x7boops\x7d".toList ≠ ['{', '}'] :=
  ⟨rfl, by decide, by decide⟩

/-- C4 amended: the extractor is total; when no brace pair exists it returns
the neutral empty object; when the sliced span fails to parse it returns the
best-effort compaction of the span (the span with newlines, carriage returns
and tabs removed, stripped; the empty object if nothing is left); and empty
model text still yields an empty link list downstream in `_call_claude`. -/
theorem c4_extractor_fallback (text : List Char) :
    (pyFindChar '{' text = -1 ∨ pyRfindChar '}' text = -1 ∨
        pyRfindChar '}' text < pyFindChar '{' text →
      extractMinifiedJson text = ['{', '}']) ∧
    (parseJsonTop (braceSlice text) = none →
      extractMinifiedJson text = ['{', '}'] ∨
        extractMinifiedJson text = bestEffortCompact (braceSlice text)) ∧
    callClaudeLinks (.returned (askWebEnforceJsonText [])) = [] := by
  refine ⟨?_, ?_, by decide⟩
  · intro h
    unfold extractMinifiedJson
    rw [if_pos h]
  · intro h
    by_cases hc : pyFindChar '{' text = -1 ∨ pyRfindChar '}' text = -1 ∨
        pyRfindChar '}' text < pyFindChar '{' text
    · left
      unfold extractMinifiedJson
      rw [if_pos hc]
    · right
      unfold extractMinifiedJson
      rw [if_neg hc, h]

/-- C4 witness: the amended theorem applied at concrete inputs — text with no
brace pair yields the neutral object, and a non-parsing span yields its
best-effort compaction. -/
theorem c4_extractor_fallback_witness :
    extractMinifiedJson "no json here".toList = ['{', '}'] ∧
    (extractMinifiedJson "\x7bbad\x7d".toList = ['{', '}'] ∨
      extractMinifiedJson "\x7bbad\x7d".toList =
        bestEffortCompact (braceSlice "\x7bbad\x7d".toList)) :=
  ⟨(c4_extractor_fallback "no json here".toList).1 (by decide),
   (c4_extractor_fallback "\x7bbad\x7d".toList).2.1 rfl⟩

/-- C5 counterexample: a valid minified JSON array embedded with no
surrounding text at all is not recovered — the extractor only looks for
braces, returns the neutral empty object, and the parsed value differs from
the parse of the array. -/
theorem c5_array_not_recovered :
    parseJsonTop "[1,2,3]".toList = some (.arr [.num 1, .num 2, .num 3]) ∧
    extractMinifiedJson "[1,2,3]".toList = ['{', '}'] ∧
    parseJsonTop ['{', '}'] = some (.obj []) ∧
    Json.obj [] ≠ Json.arr [.num 1, .num 2, .num 3] :=
  ⟨rfl, by decide, rfl, fun h => Json.noConfusion h⟩

/-- C5 amended: restricted to JSON *objects*: for every string `s` that
parses as a JSON value, starts with `\x7b` and ends with `\x7d`, and every
leading text without `\x7b` and trailing text without `\x7d`, the extractor
applied to the concatenation recovers exactly the minified serialization of
the parsed value of `s`. -/
theorem c5_object_roundtrip (l s r : List Char) (v : Json)
    (h1 : parseJsonTop s = some v) (h2 : s.head? = some '{')
    (h3 : s.getLast? = some '}') (h4 : '{' ∉ l) (h5 : '}' ∉ r) :
    extractMinifiedJson (l ++ s ++ r) = serializeJson v := by
  have hs : s ≠ [] := by
    intro h
    rw [h] at h2
    simp at h2
  have hslen : 1 ≤ s.length := by
    cases s with
    | nil => exact absurd rfl hs
    | cons a t => simp
  have hhead : (s ++ r).head? = some '{' := by
    cases s with
    | nil => exact absurd rfl hs
    | cons a t => simpa using h2
  have hfind : pyFindChar '{' (l ++ s ++ r) = (l.length : Int) := by
    rw [List.append_assoc]
    exact pyFindChar_append_of_head '{' l (s ++ r) h4 hhead
  have hrfind : pyRfindChar '}' (l ++ s ++ r) = (l.length : Int) + s.length - 1 :=
    pyRfindChar_three_append l s r h3 h5
  have hcond : ¬ (pyFindChar '{' (l ++ s ++ r) = -1 ∨
      pyRfindChar '}' (l ++ s ++ r) = -1 ∨
      pyRfindChar '}' (l ++ s ++ r) < pyFindChar '{' (l ++ s ++ r)) := by
    rw [hfind, hrfind]
    omega
  have hslice : braceSlice (l ++ s ++ r) = s := by
    unfold braceSlice
    rw [hfind, hrfind]
    have ht1 : ((l.length : Int)).toNat = l.length := by omega
    have ht2 : ((l.length : Int) + s.length - 1).toNat = l.length + s.length - 1 := by
      omega
    rw [ht1, ht2]
    have harith : l.length + s.length - 1 + 1 - l.length = s.length := by omega
    rw [harith, List.append_assoc, List.drop_left, List.take_left]
  unfold extractMinifiedJson
  rw [if_neg hcond, hslice, h1]

/-- C5 witness: the amended theorem at a concrete object with noise on both
sides. -/
theorem c5_object_roundtrip_witness :
    extractMinifiedJson ("noise ".toList ++ "\x7b\"a\":1\x7d".toList ++ " tail".toList) =
      serializeJson (.obj [("a".toList, .num 1)]) :=
  c5_object_roundtrip "noise ".toList "\x7b\"a\":1\x7d".toList " tail".toList
    (.obj [("a".toList, .num 1)]) rfl rfl rfl (by decide) (by decide)

/-! ## Strip idempotence and link validation (C6) -/

theorem dropWhile_dropWhile (p : Char → Bool) (l : List Char) :
    (l.dropWhile p).dropWhile p = l.dropWhile p := by
  induction l with
  | nil => simp
  | cons a t ih =>
    by_cases h : p a
    · simp [List.dropWhile_cons, h, ih]
    · simp [List.dropWhile_cons, h]

theorem stripLeft_idem (p : Char → Bool) (s : List Char) :
    stripLeft p (stripLeft p s) = stripLeft p s :=
  dropWhile_dropWhile p s

theorem stripRight_idem (p : Char → Bool) (s : List Char) :
    stripRight p (stripRight p s) = stripRight p s := by
  unfold stripRight
  rw [List.reverse_reverse, dropWhile_dropWhile]

theorem dropWhile_length_le (p : Char → Bool) (l : List Char) :
    (l.dropWhile p).length ≤ l.length := by
  induction l with
  | nil => simp
  | cons c rest ih =>
    by_cases h : p c
    · simp only [List.dropWhile_cons, h, if_true]
      exact Nat.le_succ_of_le ih
    · simp [List.dropWhile_cons, h]

theorem stripRight_isPrefix (p : Char → Bool) (x : List Char) :
    stripRight p x <+: x := by
  unfold stripRight
  obtain ⟨t, ht⟩ := List.dropWhile_suffix (l := x.reverse) p
  refine ⟨t.reverse, ?_⟩
  have h2 : (t ++ x.reverse.dropWhile p).reverse = x := by
    rw [ht, List.reverse_reverse]
  simpa [List.reverse_append] using h2

theorem stripLeft_of_prefix_fixed (p : Char → Bool) (x y : List Char)
    (hfix : stripLeft p x = x) (hpre : y <+: x) : stripLeft p y = y := by
  cases y with
  | nil => rfl
  | cons a t =>
    obtain ⟨rest, hr⟩ := hpre
    have hpa : ¬ p a := by
      intro hpa
      rw [← hr] at hfix
      unfold stripLeft at hfix
      rw [List.cons_append, List.dropWhile_cons, if_pos hpa] at hfix
      have hlen := congrArg List.length hfix
      have hle := dropWhile_length_le p (t ++ rest)
      simp only [List.length_cons, List.length_append] at hlen hle
      omega
    unfold stripLeft
    rw [List.dropWhile_cons, if_neg hpa]

theorem pyStrip_idem (s : List Char) : pyStrip (pyStrip s) = pyStrip s := by
  unfold pyStrip stripEnds
  have h1 : stripLeft (· ∈ pyWhitespace) (stripLeft (· ∈ pyWhitespace) s) =
      stripLeft (· ∈ pyWhitespace) s := stripLeft_idem _ s
  have h2 : stripLeft (· ∈ pyWhitespace)
      (stripRight (· ∈ pyWhitespace) (stripLeft (· ∈ pyWhitespace) s)) =
      stripRight (· ∈ pyWhitespace) (stripLeft (· ∈ pyWhitespace) s) :=
    stripLeft_of_prefix_fixed _ _ _ h1 (stripRight_isPrefix _ _)
  rw [h2, stripRight_idem]

/-- Every `some` result of `coerceOneItem` is a stripped pair passing the
keep filter. -/
theorem coerceOneItem_sound (it : Json) (lk : Link)
    (h : coerceOneItem it = some lk) :
    (∃ x, lk.title = pyStrip x) ∧ (∃ y, lk.url = pyStrip y) ∧
      keepLink lk.title lk.url = true := by
  cases it with
  | obj fields =>
    simp only [coerceOneItem] at h
    split at h
    · rename_i hk
      cases h
      exact ⟨⟨_, rfl⟩, ⟨_, rfl⟩, hk⟩
    · cases h
  | null => cases h
  | bool b => cases h
  | num n => cases h
  | str s => cases h
  | arr es => cases h

theorem oldShapeOneItem_sound (it : Json) (lk : Link)
    (h : oldShapeOneItem it = some lk) :
    (∃ x, lk.title = pyStrip x) ∧ (∃ y, lk.url = pyStrip y) ∧
      keepLink lk.title lk.url = true := by
  cases it with
  | obj fields =>
    simp only [oldShapeOneItem] at h
    split at h
    · rename_i hk
      cases h
      exact ⟨⟨_, rfl⟩, ⟨_, rfl⟩, hk⟩
    · cases h
  | null => cases h
  | bool b => cases h
  | num n => cases h
  | str s => cases h
  | arr es => cases h

/-- Every link `_call_claude` can return is a stripped pair passing the keep
filter. -/
theorem callClaudeLinks_mem (g : GatewayOutcome) (lk : Link)
    (h : lk ∈ callClaudeLinks g) :
    (∃ x, lk.title = pyStrip x) ∧ (∃ y, lk.url = pyStrip y) ∧
      keepLink lk.title lk.url = true := by
  cases g with
  | noClient => simp [callClaudeLinks] at h
  | raised => simp [callClaudeLinks] at h
  | returned txt =>
    simp only [callClaudeLinks] at h
    cases hp : parseJsonTop txt with
    | none => rw [hp] at h; simp at h
    | some data =>
      rw [hp] at h
      have h2 := List.mem_of_mem_take h
      split at h2
      · cases data with
        | obj fields =>
          simp only [oldShapeLinks] at h2
          split at h2
          · rename_i items hg
            obtain ⟨it, _, hone⟩ := List.mem_filterMap.mp h2
            exact oldShapeOneItem_sound it lk hone
          · simp at h2
        | arr items =>
          simp only [oldShapeLinks] at h2
          obtain ⟨it, _, hone⟩ := List.mem_filterMap.mp h2
          exact oldShapeOneItem_sound it lk hone
        | null => simp [oldShapeLinks] at h2
        | bool b => simp [oldShapeLinks] at h2
        | num n => simp [oldShapeLinks] at h2
        | str s => simp [oldShapeLinks] at h2
      · cases data with
        | arr items =>
          simp only [coerceListPayload] at h2
          obtain ⟨it, _, hone⟩ := List.mem_filterMap.mp h2
          exact coerceOneItem_sound it lk hone
        | obj fields => simp [coerceListPayload] at h2
        | null => simp [coerceListPayload] at h2
        | bool b => simp [coerceListPayload] at h2
        | num n => simp [coerceListPayload] at h2
        | str s => simp [coerceListPayload] at h2

/-- C6: every link in a returned `RecipeLinksResult` has an `http(s)` URL and
a title that is non-empty after trimming; records failing either condition,
under any accepted key alias, are dropped rather than kept or raised on. -/
theorem c6_link_invariants (rawItems : List RawItem)
    (gw : List Char → GatewayOutcome) (vid : List Char)
    (tO dO : Option (List Char)) (lk : Link)
    (h : lk ∈ (recipesCore rawItems gw vid tO dO).1.links) :
    (pyStartsWith "http://".toList lk.url = true ∨
      pyStartsWith "https://".toList lk.url = true) ∧
    pyStrip lk.title = lk.title ∧ pyStrip lk.title ≠ [] := by
  rw [recipesCore_links] at h
  obtain ⟨⟨x, hx⟩, ⟨y, hy⟩, hk⟩ := callClaudeLinks_mem _ lk h
  have hfix : pyStrip lk.title = lk.title := by
    rw [hx, pyStrip_idem]
  simp only [keepLink, Bool.and_eq_true, Bool.or_eq_true, decide_eq_true_eq] at hk
  obtain ⟨⟨hd, _⟩, hurl⟩ := hk
  refine ⟨hurl, hfix, ?_⟩
  rw [hfix]
  exact hd

/-- C6 witness: the invariant applied to a concrete link produced through the
full recipes path. -/
theorem c6_link_invariants_witness :
    (pyStartsWith "http://".toList "https://x".toList = true ∨
      pyStartsWith "https://".toList "https://x".toList = true) ∧
    pyStrip "a".toList = "a".toList ∧ pyStrip "a".toList ≠ [] :=
  c6_link_invariants []
    (fun _ => .returned "[\x7b\"DESCRIPTION\":\"a\",\"LINK\":\"https://x\"\x7d]".toList)
    "v".toList none none ⟨"a".toList, "https://x".toList⟩ (by decide)

/-! ## The fallback ranker refines its specification (C9) -/

theorem insertScoreDesc_map {α β : Type} (g : α → β) (x : Nat × α)
    (l : List (Nat × α)) :
    insertScoreDesc (x.1, g x.2) (l.map (fun p => (p.1, g p.2))) =
      (insertScoreDesc x l).map (fun p => (p.1, g p.2)) := by
  induction l with
  | nil => rfl
  | cons y ys ih =>
    simp only [List.map_cons, insertScoreDesc]
    by_cases h : y.1 ≤ x.1
    · simp [h]
    · simp [h, ih]

theorem sortScoreDesc_map {α β : Type} (g : α → β) (l : List (Nat × α)) :
    sortScoreDesc (l.map (fun p => (p.1, g p.2))) =
      (sortScoreDesc l).map (fun p => (p.1, g p.2)) := by
  induction l with
  | nil => rfl
  | cons x xs ih =>
    simp only [List.map_cons, sortScoreDesc, ih]
    exact insertScoreDesc_map g x (sortScoreDesc xs)

theorem mem_insertScoreDesc {α : Type} (x z : Nat × α) (l : List (Nat × α)) :
    z ∈ insertScoreDesc x l ↔ z = x ∨ z ∈ l := by
  induction l with
  | nil => simp [insertScoreDesc]
  | cons y ys ih =>
    simp only [insertScoreDesc]
    by_cases h : y.1 ≤ x.1
    · simp [h]
    · simp only [h, if_false, List.mem_cons, ih]
      tauto

theorem mem_sortScoreDesc {α : Type} (z : Nat × α) (l : List (Nat × α)) :
    z ∈ sortScoreDesc l ↔ z ∈ l := by
  induction l with
  | nil => simp [sortScoreDesc]
  | cons x xs ih =>
    simp only [sortScoreDesc, mem_insertScoreDesc, ih, List.mem_cons]

/-- Under duplicate-free ids, `_REST_BY_ID` lookup recovers exactly the
member restaurant carrying that id. -/
theorem restaurants_filter_id (l : List RRestaurant)
    (hn : (l.map RRestaurant.id).Nodup) (r : RRestaurant) (hmem : r ∈ l)
    (rid : List Char) (hid : r.id = some rid) :
    l.filter (fun r2 => r2.id = some rid) = [r] := by
  induction l with
  | nil => cases hmem
  | cons x xs ih =>
    simp only [List.map_cons, List.nodup_cons] at hn
    obtain ⟨hx, hxs⟩ := hn
    rcases List.mem_cons.mp hmem with hrx | hrxs
    · subst hrx
      rw [List.filter_cons_of_pos (by simp [hid])]
      have hnil : xs.filter (fun r2 => decide (r2.id = some rid)) = [] := by
        apply List.filter_eq_nil_iff.mpr
        intro y hy
        simp only [decide_eq_true_eq]
        intro hyid
        exact hx (by
          rw [← hid] at hyid
          exact hyid ▸ List.mem_map_of_mem RRestaurant.id hy)
      rw [hnil]
    · have hxid : ¬ (x.id = some rid) := by
        intro hxid
        apply hx
        rw [hxid, ← hid]
        exact List.mem_map_of_mem RRestaurant.id hrxs
      rw [List.filter_cons_of_neg (by simpa using hxid)]
      exact ih hxs hrxs

theorem restById_of_mem (cat : Catalog)
    (hnodup : (cat.restaurants.map RRestaurant.id).Nodup)
    (r : RRestaurant) (hmem : r ∈ cat.restaurants) (rid : List Char)
    (hid : r.id = some rid) (hrid : rid ≠ []) :
    restById cat rid = some r := by
  unfold restById
  rw [if_neg hrid, restaurants_filter_id cat.restaurants hnodup r hmem rid hid]
  rfl

/-- The id-projection / truthiness-filter / `_REST_BY_ID` re-lookup chain of
`_fallback_simple_choice` recovers exactly the chosen restaurants when ids
are truthy and duplicate-free. -/
theorem fallback_chain (cat : Catalog)
    (hid : ∀ r ∈ cat.restaurants, r.id.getD [] ≠ [])
    (hnodup : (cat.restaurants.map RRestaurant.id).Nodup)
    (T : List (Nat × RRestaurant)) (hmem : ∀ p ∈ T, p.2 ∈ cat.restaurants) :
    ((T.map (fun p => (p.1, p.2.id))).filterMap
      (fun p => match p.2 with
        | some rid => if rid = [] then none else some rid
        | none => none)).filterMap
      (fun rid => match restById cat rid with
        | none => none
        | some r => some (⟨some rid, (r.menu.map (·.name)).take 3⟩ : RecChoice)) =
    T.map (fun p =>
      (⟨p.2.id, (p.2.menu.map (·.name)).take 3⟩ : RecChoice)) := by
  induction T with
  | nil => rfl
  | cons p T2 ih =>
    have hp2 : p.2 ∈ cat.restaurants := hmem p (by simp)
    obtain ⟨s, hs, hsne⟩ : ∃ s, p.2.id = some s ∧ s ≠ [] := by
      cases hpid : p.2.id with
      | none =>
        have h := hid p.2 hp2
        rw [hpid] at h
        simp at h
      | some s =>
        refine ⟨s, rfl, ?_⟩
        have h := hid p.2 hp2
        rw [hpid] at h
        simpa using h
    have hby : restById cat s = some p.2 :=
      restById_of_mem cat hnodup p.2 hp2 s hs hsne
    have ih2 := ih (fun q hq => hmem q (by simp [hq]))
    simp only [List.map_cons, List.filterMap_cons, hs, if_neg hsne, hby, ih2]

/-- C9: the fallback token-overlap ranker is the deterministic function of
(catalog, title, description) described by the spec: tokenize title and
description into lowercase alphabetic words, score each restaurant by the
maximum token overlap over its menu-item names, stable-sort descending
(catalog order breaking ties), take the top 3 restaurants and each one's
first 3 menu items in catalog order.  Repeated invocations trivially
coincide since both sides are pure functions of the inputs. -/
theorem c9_fallback_refines_spec (cat : Catalog) (title desc : List Char)
    (hid : ∀ r ∈ cat.restaurants, r.id.getD [] ≠ [])
    (hnodup : (cat.restaurants.map RRestaurant.id).Nodup) :
    fallbackSimpleChoice cat title desc = fallbackRankerSpec cat title desc := by
  simp only [fallbackSimpleChoice, fallbackRankerSpec]
  have hmap : cat.restaurants.map
      (fun r => (bestScore (tokensOf title desc) r.menu, r.id)) =
      (cat.restaurants.map
        (fun r => (bestScore (tokensOf title desc) r.menu, r))).map
        (fun p => (p.1, p.2.id)) := by
    rw [List.map_map]
    rfl
  rw [hmap, sortScoreDesc_map, ← List.map_take]
  set T := (sortScoreDesc (cat.restaurants.map
    (fun r => (bestScore (tokensOf title desc) r.menu, r)))).take 3 with hT
  have hmemT : ∀ p ∈ T, p.2 ∈ cat.restaurants := by
    intro p hp
    rw [hT] at hp
    have h1 := List.mem_of_mem_take hp
    have h2 := (mem_sortScoreDesc p _).mp h1
    obtain ⟨r, hr, he⟩ := List.mem_map.mp h2
    rw [← he]
    exact hr
  rw [fallback_chain cat hid hnodup T hmemT]
  have hlen : (T.map (fun p =>
      (⟨p.2.id, (p.2.menu.map (·.name)).take 3⟩ : RecChoice))).length ≤ 3 := by
    rw [List.length_map, hT]
    exact List.length_take_le 3 _
  rw [List.take_of_length_le hlen, List.map_map]
  rfl

/-- C9 witness: the refinement applied to a concrete catalog and title. -/
theorem c9_fallback_refines_spec_witness :
    fallbackSimpleChoice exCatalogRamen "Spicy Ramen Night".toList [] =
      fallbackRankerSpec exCatalogRamen "Spicy Ramen Night".toList [] :=
  c9_fallback_refines_spec exCatalogRamen "Spicy Ramen Night".toList []
    (by decide) (by decide)

/-! ## Back-fill correctness (C8) -/

/-- Under duplicate-free normalized name keys, the `name_map` filter keeps
exactly the member item with that key. -/
theorem menu_filter_key (menu : List RMenuItem)
    (hn : (menu.map (fun m => normKeyOfName m.name)).Nodup)
    (m : RMenuItem) (hm : m ∈ menu) :
    menu.filter (fun m2 => normKeyOfName m2.name = normKeyOfName m.name) = [m] := by
  induction menu with
  | nil => cases hm
  | cons x xs ih =>
    simp only [List.map_cons, List.nodup_cons] at hn
    obtain ⟨hx, hxs⟩ := hn
    rcases List.mem_cons.mp hm with hmx | hmxs
    · subst hmx
      rw [List.filter_cons_of_pos (by simp)]
      have hnil : xs.filter
          (fun m2 => decide (normKeyOfName m2.name = normKeyOfName m.name)) = [] := by
        apply List.filter_eq_nil_iff.mpr
        intro y hy
        simp only [decide_eq_true_eq]
        intro hk
        exact hx (hk ▸ List.mem_map_of_mem (fun m2 => normKeyOfName m2.name) hy)
      rw [hnil]
    · have hxk : ¬ (normKeyOfName x.name = normKeyOfName m.name) := by
        intro hk
        apply hx
        rw [hk]
        exact List.mem_map_of_mem (fun m2 => normKeyOfName m2.name) hmxs
      rw [List.filter_cons_of_neg (by simpa using hxk)]
      exact ih hxs hmxs

theorem nameMapLookup_self (menu : List RMenuItem)
    (hn : (menu.map (fun m => normKeyOfName m.name)).Nodup)
    (m : RMenuItem) (hm : m ∈ menu) :
    nameMapLookup menu (normKeyOfName m.name) = some m := by
  unfold nameMapLookup
  rw [menu_filter_key menu hn m hm]
  rfl

/-- Re-resolving a catalog item's own name through `_items_to_menu_models`
yields exactly that item (duplicate-free keys). -/
theorem itemsToMenuModels_single (cat : Catalog) (rid : List Char)
    (r : RRestaurant) (hby : restById cat rid = some r)
    (hn : (r.menu.map (fun m => normKeyOfName m.name)).Nodup)
    (m : RMenuItem) (hm : m ∈ r.menu) (n : List Char) (hname : m.name = some n) :
    (itemsToMenuModels cat rid [some n]).1 = [menuItemOf rid m] := by
  simp only [itemsToMenuModels, hby]
  have hkey : nameKeyOfRequested (some n) = normKeyOfName m.name := by
    rw [hname]
    rfl
  simp only [itemsLoop, hkey, nameMapLookup_self r.menu hn m hm]

/-- The back-fill loop, on any suffix of the restaurant's menu with truthy
duplicate-free names: it appends, in catalog order, the items whose names are
not yet included, until 3 items are reached. -/
theorem backfillLoop_spec (cat : Catalog) (rid : List Char) (r : RRestaurant)
    (hby : restById cat rid = some r)
    (hnames : ∀ m ∈ r.menu, m.name.getD [] ≠ [])
    (hkeys : (r.menu.map (fun m => normKeyOfName m.name)).Nodup) :
    ∀ (menu2 : List RMenuItem), menu2 <:+ r.menu →
    ∀ (items : List MenuItem) (existing : List (List Char)),
    backfillLoop cat rid menu2 items existing =
      items ++ ((menu2.filter (fun m => decide (m.name.getD [] ∉ existing))).take
        (3 - items.length)).map (menuItemOf rid) := by
  intro menu2
  induction menu2 with
  | nil =>
    intro _ items existing
    simp [backfillLoop]
  | cons m rest ih =>
    intro hsub items existing
    obtain ⟨t, ht⟩ := hsub
    have hrest : rest <:+ r.menu := ⟨t ++ [m], by simpa using ht⟩
    have hmmem : m ∈ r.menu := by
      rw [← ht]
      simp
    have hmn := hnames m hmmem
    obtain ⟨n, hn, hnne⟩ : ∃ n, m.name = some n ∧ n ≠ [] := by
      cases hmm : m.name with
      | none =>
        rw [hmm] at hmn
        simp at hmn
      | some n2 =>
        refine ⟨n2, rfl, ?_⟩
        rw [hmm] at hmn
        simpa using hmn
    by_cases hge : 3 ≤ items.length
    · simp only [backfillLoop, if_pos hge]
      have h0 : 3 - items.length = 0 := by omega
      rw [h0]
      simp
    · by_cases hin : n ∈ existing
      · simp only [backfillLoop, if_neg hge, hn]
        rw [if_pos (Or.inr hin), ih hrest items existing,
          List.filter_cons_of_neg (by simp [hn, hin])]
      · simp only [backfillLoop, if_neg hge, hn]
        rw [if_neg (by simp [hnne, hin]),
          itemsToMenuModels_single cat rid r hby hkeys m hmmem n hn]
        simp only []
        rw [ih hrest (items ++ [menuItemOf rid m]) (existing ++ [n])]
        have hfeq : rest.filter (fun m2 => decide (m2.name.getD [] ∉ existing ++ [n])) =
            rest.filter (fun m2 => decide (m2.name.getD [] ∉ existing)) := by
          apply List.filter_congr
          intro m2 hm2
          have hm2mem : m2 ∈ r.menu := by
            obtain ⟨t2, ht2⟩ := hrest
            rw [← ht2]
            simp [hm2]
          have hm2n := hnames m2 hm2mem
          have hne2 : m2.name.getD [] ≠ n := by
            intro heq
            have hsufx : (m :: rest) <:+ r.menu := ⟨t, ht⟩
            have hsubl : List.Sublist
                ((m :: rest).map (fun mm => normKeyOfName mm.name))
                (r.menu.map (fun mm => normKeyOfName mm.name)) :=
              (List.IsSuffix.sublist hsufx).map _
            have hnodup2 := hkeys.sublist hsubl
            simp only [List.map_cons, List.nodup_cons] at hnodup2
            apply hnodup2.1
            have hkeq : normKeyOfName m2.name = normKeyOfName m.name := by
              cases hm2nm : m2.name with
              | none =>
                rw [hm2nm] at hm2n
                simp at hm2n
              | some n2 =>
                have hn2 : n2 = n := by
                  rw [hm2nm] at heq
                  simpa using heq
                rw [hn2, hn]
            rw [← hkeq]
            exact List.mem_map_of_mem _ hm2
          rw [decide_eq_decide]
          simp [hne2]
        rw [hfeq, List.filter_cons_of_pos (by simp [hn, hin])]
        have hsucc : 3 - items.length = (3 - (items.length + 1)) + 1 := by omega
        rw [hsucc, List.take_succ_cons, List.map_cons]
        simp

/-- Every resolved item is the menu-model of some menu entry. -/
theorem itemsLoop_shape (menu : List RMenuItem) (rid : List Char)
    (names : List (Option (List Char))) :
    ∀ e ∈ itemsLoop menu rid names, ∃ m ∈ menu, e = menuItemOf rid m := by
  induction names with
  | nil => simp [itemsLoop]
  | cons nm rest ih =>
    intro e he
    simp only [itemsLoop] at he
    cases hl : nameMapLookup menu (nameKeyOfRequested nm) with
    | none =>
      rw [hl] at he
      exact ih e he
    | some m =>
      rw [hl] at he
      rcases List.mem_cons.mp he with he1 | he2
      · refine ⟨m, ?_, he1⟩
        unfold nameMapLookup at hl
        exact List.mem_of_mem_filter (List.mem_of_getLast?_eq_some hl)
      · exact ih e he2

/-- Truthy, key-duplicate-free menus have duplicate-free names. -/
theorem menu_names_nodup (menu : List RMenuItem)
    (hnames : ∀ m ∈ menu, m.name.getD [] ≠ [])
    (hkeys : (menu.map (fun m => normKeyOfName m.name)).Nodup) :
    (menu.map (fun m => m.name.getD [])).Nodup := by
  have hmap : menu.map (fun m => normKeyOfName m.name) =
      (menu.map (fun m => m.name.getD [])).map
        (fun x => (pyStrip x).map Char.toLower) := by
    rw [List.map_map]
    apply List.map_congr_left
    intro m hm
    cases hmm : m.name with
    | none =>
      have h := hnames m hm
      rw [hmm] at h
      simp at h
    | some nn =>
      simp [Function.comp, hmm, normKeyOfName, pyStrOfOptStr]
  rw [hmap] at hkeys
  exact hkeys.of_map _

theorem length_filter_split {α : Type} (p : α → Bool) (l : List α) :
    l.length = (l.filter p).length + (l.filter (fun x => ! p x)).length := by
  induction l with
  | nil => rfl
  | cons x xs ih =>
    by_cases h : p x <;> simp [List.filter_cons, h, ih] <;> omega

/-- At most `existing.length` menu entries can carry an already-included
name when names are duplicate-free. -/
theorem filter_in_names_le (menu : List RMenuItem)
    (hnodupN : (menu.map (fun m => m.name.getD [])).Nodup)
    (existing : List (List Char)) :
    (menu.filter (fun m => ! decide (m.name.getD [] ∉ existing))).length ≤
      existing.length := by
  set F := menu.filter (fun m => ! decide (m.name.getD [] ∉ existing)) with hF
  have hFsub : List.Sublist F menu := List.filter_sublist menu
  have hFN : (F.map (fun m => m.name.getD [])).Nodup :=
    hnodupN.sublist (hFsub.map _)
  have hsubset : ∀ x ∈ F.map (fun m => m.name.getD []), x ∈ existing := by
    intro x hx
    obtain ⟨m, hmF, he⟩ := List.mem_map.mp hx
    rw [hF] at hmF
    have hp := (List.mem_filter.mp hmF).2
    rw [← he]
    simpa using hp
  have hsp := List.subperm_of_subset hFN hsubset
  have hlen := hsp.length_le
  simpa using hlen

/-- C8 amended: for a known restaurant whose menu has at least 3 items, all
with non-empty, pairwise-distinct normalized names, whenever the model
resolves fewer than 3 items, the block's items are exactly the resolved items
followed by the not-yet-included menu items in catalog order up to 3 total,
the final count is exactly 3, and `avg_price_cents` is the rounded mean of
all included items' `price_cents`. -/
theorem c8_backfill_exact (cat : Catalog) (rid : List Char) (r : RRestaurant)
    (hby : restById cat rid = some r)
    (hnames : ∀ m ∈ r.menu, m.name.getD [] ≠ [])
    (hkeys : (r.menu.map (fun m => normKeyOfName m.name)).Nodup)
    (hmenu3 : 3 ≤ r.menu.length)
    (itemNames : List (Option (List Char)))
    (hfew : (itemsToMenuModels cat rid (itemNames.take 3)).1.length < 3) :
    (blockItemsAndAvg cat rid r itemNames).1 =
      (itemsToMenuModels cat rid (itemNames.take 3)).1 ++
        ((r.menu.filter (fun m => decide (m.name.getD [] ∉
            (itemsToMenuModels cat rid (itemNames.take 3)).1.map
              (fun i => i.name)))).take
          (3 - (itemsToMenuModels cat rid (itemNames.take 3)).1.length)).map
          (menuItemOf rid) ∧
    (blockItemsAndAvg cat rid r itemNames).1.length = 3 ∧
    (blockItemsAndAvg cat rid r itemNames).2 =
      pyRoundMean ((blockItemsAndAvg cat rid r itemNames).1.map
        (fun i => i.price_cents)) := by
  have hb := backfillLoop_spec cat rid r hby hnames hkeys r.menu
    (List.suffix_refl _)
    (itemsToMenuModels cat rid (itemNames.take 3)).1
    ((itemsToMenuModels cat rid (itemNames.take 3)).1.map (fun i => i.name))
  have hblock1 : (blockItemsAndAvg cat rid r itemNames).1 =
      backfillLoop cat rid r.menu
        (itemsToMenuModels cat rid (itemNames.take 3)).1
        ((itemsToMenuModels cat rid (itemNames.take 3)).1.map (fun i => i.name)) := by
    simp only [blockItemsAndAvg]
    rw [if_pos hfew]
  -- the count of fresh menu items available for back-fill
  have hnodupN := menu_names_nodup r.menu hnames hkeys
  have hle := filter_in_names_le r.menu hnodupN
    ((itemsToMenuModels cat rid (itemNames.take 3)).1.map (fun i => i.name))
  have hsplit := length_filter_split
    (fun m => decide (m.name.getD [] ∉
      (itemsToMenuModels cat rid (itemNames.take 3)).1.map (fun i => i.name)))
    r.menu
  have hexlen : ((itemsToMenuModels cat rid (itemNames.take 3)).1.map
      (fun i => i.name)).length =
      (itemsToMenuModels cat rid (itemNames.take 3)).1.length :=
    List.length_map _ _
  have hF2 : 3 - (itemsToMenuModels cat rid (itemNames.take 3)).1.length ≤
      (r.menu.filter (fun m => decide (m.name.getD [] ∉
        (itemsToMenuModels cat rid (itemNames.take 3)).1.map
          (fun i => i.name)))).length := by
    omega
  have hlen3 : (blockItemsAndAvg cat rid r itemNames).1.length = 3 := by
    rw [hblock1, hb]
    simp only [List.length_append, List.length_map, List.length_take]
    omega
  refine ⟨?_, hlen3, ?_⟩
  · rw [hblock1, hb]
  · have hne : (blockItemsAndAvg cat rid r itemNames).1 ≠ [] := by
      intro h0
      rw [h0] at hlen3
      simp at hlen3
    have hblock2 : (blockItemsAndAvg cat rid r itemNames).2 =
        if (blockItemsAndAvg cat rid r itemNames).1 = []
        then (itemsToMenuModels cat rid (itemNames.take 3)).2
        else pyRoundMean ((blockItemsAndAvg cat rid r itemNames).1.map
          (fun i => i.price_cents)) := by
      conv =>
        lhs
        simp only [blockItemsAndAvg]
      rw [if_pos hfew, hblock1]
    rw [hblock2, if_neg hne]

/-- C8 counterexample: a known restaurant with a 3-item menu containing a
duplicated item name, and a model naming no resolvable items: the block ends
with only 2 items, not the claimed exactly 3. -/
theorem c8_duplicate_name_counterexample :
    ((restById exCatalogDup "r1".toList).getD ⟨none, none, []⟩).menu.length = 3 ∧
    (itemsToMenuModels exCatalogDup "r1".toList []).1.length < 3 ∧
    (blockItemsAndAvg exCatalogDup "r1".toList
        ((restById exCatalogDup "r1".toList).getD ⟨none, none, []⟩) []).1.length ≠ 3 :=
  ⟨by decide, by decide, by decide⟩

/-- C8 witness: the amended back-fill theorem applied to a concrete
5-item menu with one resolvable requested name. -/
theorem c8_backfill_exact_witness :
    (blockItemsAndAvg exCatalogRamen "r1".toList exRamenR1
      [some "GYOZA (6pc) ".toList]).1.length = 3 :=
  (c8_backfill_exact exCatalogRamen "r1".toList exRamenR1 (by decide) (by decide)
    (by decide) (by decide) [some "GYOZA (6pc) ".toList] (by decide)).2.1

end Haaangry
